import Mathlib

/-!
Verification of the quantile-based two-stage IV estimation code of `ml-mr`
(`ml_mr/estimation/quantile_iv.py`, `core.py`, `delivr.py`, and
`evaluation/metrics.py`) against its natural-language specification.

The Python code is shallowly embedded: tensors over real (or rational)
entries become `Fin`-indexed functions and `Matrix`, Python loops become
folds or finite sums written exactly in the shape of the loop, fallible
code (asserts, `getattr`, file loading) returns `Except`.  External
dependencies (the feed-forward network builder, sklearn's PCA transform,
scipy's normal quantile function) are abstracted as function parameters,
since the spec treats them as external collaborators.
-/

/- ------------------------------------------------------------------ -/
/- Quantile set (ExposureQuantileMLP.__init__ / ExposureNMQN.__init__) -/
/- ------------------------------------------------------------------ -/

/-- Quantile levels built by `ExposureQuantileMLP.__init__`:
`[(2 * k - 1) / (2 * n_quantiles) for k in range(1, n_quantiles + 1)]`.
Index `k : Fin n` stands for the Python loop value `k.val + 1`. -/
def ExposureQuantileMLP.quantiles (n : ℕ) : Fin n → ℚ :=
  fun k => (2 * ((k : ℚ) + 1) - 1) / (2 * n)

/-- Quantile levels built by `ExposureNMQN.__init__` (textually the same
construction as in `ExposureQuantileMLP.__init__`). -/
def ExposureNMQN.quantiles (n : ℕ) : Fin n → ℚ :=
  fun k => (2 * ((k : ℚ) + 1) - 1) / (2 * n)

/- ------------------------------------------------------------------ -/
/- OutcomeMLP.forward (quantile_iv.py)                                 -/
/- ------------------------------------------------------------------ -/

section OutcomeForward

variable {ι Cov : Type} {α : Type} [Field α]

/-- One sample's accumulation loop in `OutcomeMLP.forward`:
`y_hat = 0; for j in range(n_q): y_hat += self.mlp(_cat(x_hats[:, [j]], covars)) / n_q`.
`mlp` is the outcome sub-network (external MLP builder, abstracted),
`xhat` the row of exposure-network outputs for this sample. -/
def OutcomeMLP.forwardRow {K : ℕ} (mlp : α → Cov → α) (xhat : Fin K → α)
    (cov : Cov) : α :=
  (List.finRange K).foldl (fun acc j => acc + mlp (xhat j) cov / K) 0

/-- `OutcomeMLP.forward` over a batch: the exposure network is applied to
each sample's instruments/covariates (giving `n_quantiles` plug-in values
per sample), then the accumulation loop runs for every sample. -/
def OutcomeMLP.forward {K : ℕ} (exposure_network : ι → Fin K → α)
    (mlp : α → Cov → α) (batch : List (ι × Cov)) : List α :=
  batch.map (fun s => OutcomeMLP.forwardRow mlp (exposure_network s.1) s.2)

/-- The spec's formula for the outcome model's prediction on one sample:
`ŷ = (1/n_quantiles) · Σ_j f(x̂_j, covars)`. -/
def OutcomeMLP.specRow {K : ℕ} (mlp : α → Cov → α) (xhat : Fin K → α)
    (cov : Cov) : α :=
  ((K : α))⁻¹ * ∑ j : Fin K, mlp (xhat j) cov

lemma foldl_add_div {β : Type} (f : β → α) (c : α) :
    ∀ (l : List β) (a : α),
      l.foldl (fun acc x => acc + f x / c) a = a + (l.map (fun x => f x / c)).sum := by
  intro l
  induction l with
  | nil => intro a; simp
  | cons x xs ih =>
      intro a
      simp only [List.foldl_cons, List.map_cons, List.sum_cons]
      rw [ih]
      ring

lemma OutcomeMLP.forwardRow_eq_specRow {K : ℕ} (mlp : α → Cov → α)
    (xhat : Fin K → α) (cov : Cov) :
    OutcomeMLP.forwardRow mlp xhat cov = OutcomeMLP.specRow mlp xhat cov := by
  unfold OutcomeMLP.forwardRow OutcomeMLP.specRow
  rw [foldl_add_div (fun j => mlp (xhat j) cov) (K : α)]
  rw [zero_add]
  rw [← Fin.sum_univ_def (fun j => mlp (xhat j) cov / (K : α))]
  rw [← Finset.sum_div]
  rw [div_eq_inv_mul]

/-- CLAIM C1: for every batch of instruments (with covariates) the outcome
model returns exactly one predicted outcome per sample, equal to the
arithmetic mean over the `n_quantiles` exposure-network outputs of the
outcome sub-network applied to each plug-in value:
`ŷ = (1/n_quantiles) · Σ_j f(x̂_j, covars)`. -/
theorem outcomeMLP_forward_averages {K : ℕ} (exposure_network : ι → Fin K → α)
    (mlp : α → Cov → α) (batch : List (ι × Cov)) :
    OutcomeMLP.forward exposure_network mlp batch =
      batch.map (fun s => OutcomeMLP.specRow mlp (exposure_network s.1) s.2) ∧
    (OutcomeMLP.forward exposure_network mlp batch).length = batch.length := by
  constructor
  · unfold OutcomeMLP.forward
    apply List.map_congr_left
    intro s _
    exact OutcomeMLP.forwardRow_eq_specRow mlp (exposure_network s.1) s.2
  · unfold OutcomeMLP.forward
    exact List.length_map batch _

end OutcomeForward

/- ------------------------------------------------------------------ -/
/- Quantile set properties (claim C3)                                  -/
/- ------------------------------------------------------------------ -/

/-- CLAIM C3: for every `n_quantiles ≥ 3`, both exposure model variants
construct the quantile set `(2k-1)/(2 n)` for `k = 1..n`, and this
sequence is strictly increasing, contained in `(0,1)`, and symmetric
about `0.5` (the `i`-th and `(n+1-i)`-th levels sum to `1`). -/
theorem exposure_quantiles_increasing_symmetric (n : ℕ) (hn : 3 ≤ n) :
    ExposureNMQN.quantiles n = ExposureQuantileMLP.quantiles n ∧
    StrictMono (ExposureQuantileMLP.quantiles n) ∧
    (∀ k : Fin n, 0 < ExposureQuantileMLP.quantiles n k ∧
      ExposureQuantileMLP.quantiles n k < 1) ∧
    (∀ k : Fin n,
      ExposureQuantileMLP.quantiles n k +
        ExposureQuantileMLP.quantiles n k.rev = 1) := by
  have hn0 : 0 < n := by omega
  have hden : (0 : ℚ) < 2 * n := by positivity
  refine ⟨rfl, ?_, ?_, ?_⟩
  · intro a b hab
    unfold ExposureQuantileMLP.quantiles
    rw [div_lt_div_iff₀ hden hden]
    have : (a : ℚ) < (b : ℚ) := by exact_mod_cast hab
    nlinarith
  · intro k
    unfold ExposureQuantileMLP.quantiles
    constructor
    · apply div_pos _ hden
      have : (0 : ℚ) ≤ (k : ℚ) := by positivity
      linarith
    · rw [div_lt_one hden]
      have hk : ((k : ℕ) : ℚ) + 1 ≤ (n : ℚ) := by exact_mod_cast k.isLt
      linarith
  · intro k
    unfold ExposureQuantileMLP.quantiles
    have hkrev : ((k.rev : ℕ) : ℚ) = (n : ℚ) - 1 - (k : ℚ) := by
      have h1 : (k.rev : ℕ) = n - 1 - (k : ℕ) := by
        simp [Fin.rev]
        omega
      rw [h1]
      have hk : (k : ℕ) ≤ n - 1 := by omega
      push_cast [Nat.cast_sub hk, Nat.cast_sub (by omega : 1 ≤ n)]
      ring
    rw [div_add_div_same, div_eq_one_iff_eq (by linarith)]
    rw [hkrev]
    ring

/-- Witness for C3 at `n = 3`. -/
theorem exposure_quantiles_increasing_symmetric_witness :
    (3 ≤ 3) ∧
    (ExposureNMQN.quantiles 3 = ExposureQuantileMLP.quantiles 3 ∧
    StrictMono (ExposureQuantileMLP.quantiles 3) ∧
    (∀ k : Fin 3, 0 < ExposureQuantileMLP.quantiles 3 k ∧
      ExposureQuantileMLP.quantiles 3 k < 1) ∧
    (∀ k : Fin 3,
      ExposureQuantileMLP.quantiles 3 k +
        ExposureQuantileMLP.quantiles 3 k.rev = 1)) :=
  ⟨by norm_num, exposure_quantiles_increasing_symmetric 3 (by norm_num)⟩

/- ------------------------------------------------------------------ -/
/- ExposureNMQN.forward (claim C4)                                     -/
/- ------------------------------------------------------------------ -/

section NMQNForward

variable {α : Type} [CommRing α]

/-- `ExposureNMQN.forward` after the (external) MLP body.  The base MLP is
followed by `nn.Sigmoid()`, so its output `mlpOut` lies in `(0,1)^h`; the
code then prepends a constant-one column
(`torch.hstack((torch.ones(n, 1), mlp_out))`), forms
`betas = torch.cumsum(self.deltas.weight, dim=1)` — a cumulative sum of the
weight matrix `W : (n_quantiles) × (h+1)` **along the second (feature)
axis**, so `betas[q, i] = Σ_{i' ≤ i} W[q, i']` — and returns
`mlp_out @ betas.T`, i.e. entry `q` is `Σ_i mlpAug[i] * betas[q, i]`. -/
def ExposureNMQN.forward {nq h : ℕ} (W : Matrix (Fin nq) (Fin (h + 1)) α)
    (mlpOut : Fin h → α) : Fin nq → α :=
  fun q => ∑ i : Fin (h + 1),
    (Fin.cases 1 mlpOut i) * (∑ m : Fin (h + 1), if m ≤ i then W q m else 0)

/-- The `deltas.weight` matrix of the failing input for C4:
`n_quantiles = 3`, last hidden width `1`, weight `[[0,0],[0,5],[0,1]]`.
Every row beyond the first is nonnegative. -/
def nmqnCexWeight : Matrix (Fin 3) (Fin 2) ℚ :=
  fun q i => if i = 0 then 0 else if q = 0 then 0 else if q = 1 then 5 else 1

/-- The post-sigmoid hidden activation of the failing input for C4: a
single hidden unit at `1/2` (the sigmoid of a zero pre-activation). -/
def nmqnCexMlpOut : Fin 1 → ℚ := fun _ => 1/2

set_option maxRecDepth 4000 in
lemma nmqn_forward_eval (Wm : Matrix (Fin 3) (Fin 2) ℚ) (phi : Fin 1 → ℚ)
    (q : Fin 3) :
    ExposureNMQN.forward Wm phi q = Wm q 0 + phi 0 * (Wm q 0 + Wm q 1) := by
  unfold ExposureNMQN.forward
  rw [Fin.sum_univ_two, Fin.sum_univ_two, Fin.sum_univ_two]
  have h1 : (1 : Fin 2) = Fin.succ 0 := rfl
  rw [h1, Fin.cases_succ, Fin.cases_zero]
  norm_num

/-- CLAIM C4 (code evaluated at the failing input): the claim states that
whenever all rows of `deltas.weight` beyond the first are nonnegative,
`ExposureNMQN.forward` is nondecreasing in the quantile index.  On the
concrete weight `[[0,0],[0,5],[0,1]]` (rows beyond the first nonnegative)
and hidden activation `1/2 ∈ (0,1)`, the code returns quantile
predictions `(0, 5/2, 1/2)`: the prediction at quantile index 2 is
strictly below the one at index 1, because `torch.cumsum(..., dim=1)`
accumulates along the feature axis rather than the quantile axis. -/
theorem nmqn_forward_monotonicity_fails :
    (∀ q : Fin 3, 1 ≤ (q : ℕ) → ∀ i : Fin 2, 0 ≤ nmqnCexWeight q i) ∧
    (0 < nmqnCexMlpOut 0 ∧ nmqnCexMlpOut 0 < 1) ∧
    ExposureNMQN.forward nmqnCexWeight nmqnCexMlpOut 1 = 5/2 ∧
    ExposureNMQN.forward nmqnCexWeight nmqnCexMlpOut 2 = 1/2 ∧
    ExposureNMQN.forward nmqnCexWeight nmqnCexMlpOut 2 <
      ExposureNMQN.forward nmqnCexWeight nmqnCexMlpOut 1 := by
  have e1 : ExposureNMQN.forward nmqnCexWeight nmqnCexMlpOut 1 = 5/2 := by
    rw [nmqn_forward_eval]
    norm_num [nmqnCexWeight, nmqnCexMlpOut, Fin.ext_iff]
  have e2 : ExposureNMQN.forward nmqnCexWeight nmqnCexMlpOut 2 = 1/2 := by
    rw [nmqn_forward_eval]
    norm_num [nmqnCexWeight, nmqnCexMlpOut, Fin.ext_iff]
  refine ⟨?_, ⟨by norm_num [nmqnCexMlpOut], by norm_num [nmqnCexMlpOut]⟩,
    e1, e2, ?_⟩
  · intro q hq i
    fin_cases q <;> fin_cases i <;>
      norm_num [nmqnCexWeight, Fin.ext_iff] at hq ⊢
  · rw [e1, e2]
    norm_num

end NMQNForward

/- ------------------------------------------------------------------ -/
/- QuantileIVLinearEstimator.linear_inference (claims C2, C5, C9)      -/
/- ------------------------------------------------------------------ -/

section LinearInference

open Matrix

variable {α : Type} [LinearOrderedField α]
variable {n K dR dP m : ℕ} {Cov : Type}

/-- `torch.linalg.inv`, written out as the explicit adjugate formula; it
agrees with Mathlib's matrix inverse (`matInv_eq_inv`). -/
def matInv {s : ℕ} (A : Matrix (Fin s) (Fin s) α) :
    Matrix (Fin s) (Fin s) α :=
  (A.det)⁻¹ • A.adjugate

lemma matInv_eq_inv {s : ℕ} (A : Matrix (Fin s) (Fin s) α) :
    matInv A = A⁻¹ := by
  rw [Matrix.inv_def, matInv, Ring.inverse_eq_inv']

/-- `torch.hstack((torch.ones((r, 1)), M))`: prepend an all-ones intercept
column to a matrix. -/
def addIntercept {r c : ℕ} (M : Matrix (Fin r) (Fin c) α) :
    Matrix (Fin r) (Fin (c + 1)) α :=
  Matrix.of fun i j => Fin.cases 1 (fun p => M i p) j

/-- The data `QuantileIVLinearEstimator.linear_inference` reads and the
trained networks it closes over: `getRepr` is
`outcome_network.get_repr(_cat(value, covars))` (the outcome network's
penultimate representation, an external trained module), `xhat` the
exposure network's per-sample quantile predictions, `x`/`y`/`cov` the
dataset columns, and `pca` the fitted `sklearn` PCA transform (external),
the same transform being applied to `eta_bar`, to `H` and to queries. -/
structure QuantileIVLinearData (α Cov : Type) (n K dR dP : ℕ) where
  getRepr : α → Cov → Fin dR → α
  xhat : Fin n → Fin K → α
  x : Fin n → α
  y : Fin n → α
  cov : Fin n → Cov
  pca : (Fin dR → α) → Fin dP → α

namespace QuantileIVLinearEstimator

/-- The `eta_bar` accumulation loop of `linear_inference`:
`for j in range(n_quantiles): eta_bar += get_repr(_cat(x_hats[:, [j]], covars)) / n_quantiles`. -/
def etaBar (D : QuantileIVLinearData α Cov n K dR dP) :
    Matrix (Fin n) (Fin dR) α :=
  ∑ j : Fin K, Matrix.of fun i d => D.getRepr (D.xhat i j) (D.cov i) d / K

/-- `eta_bar_pca = torch.hstack((ones, pca.transform(eta_bar)))`. -/
def etaBarPca (D : QuantileIVLinearData α Cov n K dR dP) :
    Matrix (Fin n) (Fin (dP + 1)) α :=
  addIntercept (Matrix.of fun i => D.pca (etaBar D i))

/-- `H = get_repr(_cat(x, covars))`: the representation of the observed
exposure. -/
def H (D : QuantileIVLinearData α Cov n K dR dP) :
    Matrix (Fin n) (Fin dR) α :=
  Matrix.of fun i d => D.getRepr (D.x i) (D.cov i) d

/-- `H_pca = torch.hstack((ones, pca.transform(H)))`. -/
def Hpca (D : QuantileIVLinearData α Cov n K dR dP) :
    Matrix (Fin n) (Fin (dP + 1)) α :=
  addIntercept (Matrix.of fun i => D.pca (H D i))

/-- `beta_IV_hat = torch.linalg.inv(eta_bar_pca.T @ H_pca) @ eta_bar_pca.T @ y`. -/
def betaIVHat (D : QuantileIVLinearData α Cov n K dR dP) : Fin (dP + 1) → α :=
  (matInv ((etaBarPca D)ᵀ * Hpca D)).mulVec ((etaBarPca D)ᵀ.mulVec D.y)

/-- `mat_diag = torch.diag(((H_pca @ beta_IV_hat - y) ** 2).reshape(-1))`. -/
def matDiag (D : QuantileIVLinearData α Cov n K dR dP) :
    Matrix (Fin n) (Fin n) α :=
  Matrix.diagonal fun i => ((Hpca D).mulVec (betaIVHat D) i - D.y i) ^ 2

/-- `var_beta_IV_hat = mat_etabar_H_inv @ mat_etabar.T @ mat_diag @ mat_etabar @ mat_etabar_H_inv`. -/
def varBetaIVHat (D : QuantileIVLinearData α Cov n K dR dP) :
    Matrix (Fin (dP + 1)) (Fin (dP + 1)) α :=
  matInv ((etaBarPca D)ᵀ * Hpca D) * (etaBarPca D)ᵀ * matDiag D *
    etaBarPca D * matInv ((etaBarPca D)ᵀ * Hpca D)

/-- Inside the returned `iv_reg` closure:
`eta_pca = torch.hstack((ones, pca.transform(get_repr(_cat(x, covars)))))`
for a batch of query exposure values. -/
def queryEtaPca (D : QuantileIVLinearData α Cov n K dR dP)
    (xq : Fin m → α) (covq : Fin m → Cov) :
    Matrix (Fin m) (Fin (dP + 1)) α :=
  addIntercept (Matrix.of fun q => D.pca (D.getRepr (xq q) (covq q)))

/-- `h_hat = beta_IV_hat.T @ eta_pca.T` (one entry per query). -/
def hHat (D : QuantileIVLinearData α Cov n K dR dP)
    (xq : Fin m → α) (covq : Fin m → Cov) : Fin m → α :=
  fun q => ∑ c : Fin (dP + 1), betaIVHat D c * queryEtaPca D xq covq q c

/-- The clipping floor `1e-200` of
`torch.clip(torch.diag(eta_pca @ var_beta_IV_hat @ eta_pca.T), 1e-200)`. -/
def seFloor : α := ((10 : α) ^ (200 : ℕ))⁻¹

/-- `se_h_hat = torch.sqrt(torch.clip(torch.diag(eta_pca @ var_beta_IV_hat @ eta_pca.T), 1e-200))`.
`sqrtFn` abstracts `torch.sqrt` (instantiated with `Real.sqrt`). -/
def seHHat (sqrtFn : α → α) (D : QuantileIVLinearData α Cov n K dR dP)
    (xq : Fin m → α) (covq : Fin m → Cov) : Fin m → α :=
  fun q => sqrtFn
    (max ((queryEtaPca D xq covq * varBetaIVHat D *
      (queryEtaPca D xq covq)ᵀ) q q) seFloor)

/-- `QuantileIVLinearEstimator.iv_reg_function`: calls the `iv_reg`
closure (`ys, se_ys = self.h(x, covars)`) and returns
`torch.hstack([lower_ci, ys, upper_ci])` per query, where
`lower_ci = ys + stats.norm.ppf(alpha/2) * se_ys` and
`upper_ci = ys + stats.norm.ppf(1-alpha/2) * se_ys`; `ppf` abstracts
`scipy.stats.norm.ppf`. -/
def iv_reg_function (sqrtFn ppf : α → α) (alpha : α)
    (D : QuantileIVLinearData α Cov n K dR dP)
    (xq : Fin m → α) (covq : Fin m → Cov) : Fin m → α × α × α :=
  fun q =>
    (hHat D xq covq q + ppf (alpha / 2) * seHHat sqrtFn D xq covq q,
     hHat D xq covq q,
     hHat D xq covq q + ppf (1 - alpha / 2) * seHHat sqrtFn D xq covq q)

/-- The spec's description of `eta_bar`: the average over the
`n_quantiles` plug-in representations. -/
def etaBarSpec (D : QuantileIVLinearData α Cov n K dR dP) :
    Matrix (Fin n) (Fin dR) α :=
  Matrix.of fun i d => (∑ j : Fin K, D.getRepr (D.xhat i j) (D.cov i) d) / K

/-- The spec's `η̄ᵖᶜᵃ`: the PCA projection of the averaged representation
with an intercept column prepended. -/
def etaBarPcaSpec (D : QuantileIVLinearData α Cov n K dR dP) :
    Matrix (Fin n) (Fin (dP + 1)) α :=
  addIntercept (Matrix.of fun i => D.pca (etaBarSpec D i))

lemma etaBar_eq_etaBarSpec (D : QuantileIVLinearData α Cov n K dR dP) :
    etaBar D = etaBarSpec D := by
  unfold etaBar etaBarSpec
  ext i d
  rw [Finset.sum_apply, Finset.sum_apply]
  simp only [Matrix.of_apply]
  rw [Finset.sum_div]

lemma etaBarPca_eq_spec (D : QuantileIVLinearData α Cov n K dR dP) :
    etaBarPca D = etaBarPcaSpec D := by
  unfold etaBarPca etaBarPcaSpec
  rw [etaBar_eq_etaBarSpec]

end QuantileIVLinearEstimator

open QuantileIVLinearEstimator

/-- CLAIM C2: the coefficient vector fitted by
`QuantileIVLinearEstimator.linear_inference` satisfies
`β̂ = (η̄ᵖᶜᵃᵀ Hᵖᶜᵃ)⁻¹ η̄ᵖᶜᵃᵀ y`, where `η̄ᵖᶜᵃ` is the PCA projection of
the average over the `n_quantiles` plug-in representations with an
all-ones intercept column prepended, and `Hᵖᶜᵃ` is the PCA projection of
the representation of the observed exposure with an intercept column
prepended (`⁻¹` being the Mathlib matrix inverse). -/
theorem quantileIVLinear_beta_closed_form
    (D : QuantileIVLinearData α Cov n K dR dP) :
    betaIVHat D =
      (((etaBarPcaSpec D)ᵀ * Hpca D)⁻¹).mulVec
        ((etaBarPcaSpec D)ᵀ.mulVec D.y) := by
  unfold betaIVHat
  rw [etaBarPca_eq_spec, matInv_eq_inv]

lemma mul_mul_transpose_apply {s : ℕ} (A : Matrix (Fin m) (Fin s) α)
    (V : Matrix (Fin s) (Fin s) α) (q : Fin m) :
    (A * V * Aᵀ) q q = ∑ c : Fin s, ∑ e : Fin s, A q c * V c e * A q e := by
  simp only [Matrix.mul_apply, Matrix.transpose_apply, Finset.sum_mul]
  rw [Finset.sum_comm]

/-- The spec's point estimate at a query:
`ĥ(x) = β̂ᵀ · [1, pca(representation(x, covars))]`. -/
def specHhat (D : QuantileIVLinearData α Cov n K dR dP)
    (xq : Fin m → α) (covq : Fin m → Cov) (q : Fin m) : α :=
  ∑ c : Fin (dP + 1),
    QuantileIVLinearEstimator.betaIVHat D c *
      Fin.cases 1 (D.pca (D.getRepr (xq q) (covq q))) c

/-- The spec's variance at a query: the quadratic form of the sandwich
covariance at the query's intercept-extended projected representation. -/
def specVarHhat (D : QuantileIVLinearData α Cov n K dR dP)
    (xq : Fin m → α) (covq : Fin m → Cov) (q : Fin m) : α :=
  ∑ c : Fin (dP + 1), ∑ e : Fin (dP + 1),
    (Fin.cases 1 (D.pca (D.getRepr (xq q) (covq q))) c : α) *
      QuantileIVLinearEstimator.varBetaIVHat D c e *
      Fin.cases 1 (D.pca (D.getRepr (xq q) (covq q))) e

/-- The spec's standard error at a query: square root of the clipped
variance. -/
def specSeHhat (sqrtFn : α → α) (D : QuantileIVLinearData α Cov n K dR dP)
    (xq : Fin m → α) (covq : Fin m → Cov) (q : Fin m) : α :=
  sqrtFn (max (specVarHhat D xq covq q) seFloor)

/-- CLAIM C5: `QuantileIVLinearEstimator.linear_inference` computes the
coefficient covariance as the sandwich
`(η̄ᵖᶜᵃᵀ Hᵖᶜᵃ)⁻¹ η̄ᵖᶜᵃᵀ diag((Hᵖᶜᵃ β̂ − y)²) η̄ᵖᶜᵃ (η̄ᵖᶜᵃᵀ Hᵖᶜᵃ)⁻¹`
built from the residuals `Hᵖᶜᵃ β̂ − y`, and for every query exposure,
covariates and level `alpha`, `iv_reg_function` returns the triple
`(ĥ + Φ⁻¹(α/2)·se, ĥ, ĥ + Φ⁻¹(1−α/2)·se)` where
`ĥ = β̂ᵀ [1, pca(representation)]` and `se` is the standard error derived
from that same sandwich covariance. -/
theorem quantileIVLinear_sandwich_and_interval
    (sqrtFn ppf : α → α) (alpha : α)
    (D : QuantileIVLinearData α Cov n K dR dP)
    (xq : Fin m → α) (covq : Fin m → Cov) :
    varBetaIVHat D =
      ((etaBarPca D)ᵀ * Hpca D)⁻¹ * (etaBarPca D)ᵀ *
        Matrix.diagonal (fun i => ((Hpca D).mulVec (betaIVHat D) i - D.y i) ^ 2) *
        etaBarPca D * ((etaBarPca D)ᵀ * Hpca D)⁻¹ ∧
    (∀ q : Fin m,
      iv_reg_function sqrtFn ppf alpha D xq covq q =
        (specHhat D xq covq q +
           ppf (alpha / 2) * specSeHhat sqrtFn D xq covq q,
         specHhat D xq covq q,
         specHhat D xq covq q +
           ppf (1 - alpha / 2) * specSeHhat sqrtFn D xq covq q)) := by
  constructor
  · unfold varBetaIVHat matDiag
    rw [matInv_eq_inv]
  · intro q
    have hquad : (queryEtaPca D xq covq * varBetaIVHat D *
        (queryEtaPca D xq covq)ᵀ) q q = specVarHhat D xq covq q := by
      rw [mul_mul_transpose_apply]
      rfl
    unfold iv_reg_function seHHat hHat specSeHhat specHhat
    rw [hquad]
    rfl

end LinearInference

/- ------------------------------------------------------------------ -/
/- Clipping of the standard-error variance (claim C9)                  -/
/- ------------------------------------------------------------------ -/

section ClipSafety

open Matrix QuantileIVLinearEstimator

/-- CLAIM C9: for every query exposure, covariates and `alpha` in `(0,1)`
(`ppf` being the normal quantile function, characterised here only by its
signs at `alpha/2` and `1 - alpha/2`), the variance passed to the square
root in the linear estimator's standard-error computation is first
clipped to at least `1e-200`, so the returned standard error is a
well-defined nonnegative number and the returned triple satisfies
`lower ≤ point ≤ upper`. -/
theorem quantileIVLinear_se_clip_safe {n K dR dP m : ℕ} {Cov : Type}
    (D : QuantileIVLinearData ℝ Cov n K dR dP) (ppf : ℝ → ℝ) (alpha : ℝ)
    (xq : Fin m → ℝ) (covq : Fin m → Cov) (q : Fin m)
    (halpha0 : 0 < alpha) (halpha1 : alpha < 1)
    (hlo : ppf (alpha / 2) ≤ 0) (hhi : 0 ≤ ppf (1 - alpha / 2)) :
    (0 : ℝ) < seFloor ∧
    (seFloor : ℝ) ≤
      max ((queryEtaPca D xq covq * varBetaIVHat D *
        (queryEtaPca D xq covq)ᵀ) q q) seFloor ∧
    0 ≤ seHHat Real.sqrt D xq covq q ∧
    (iv_reg_function Real.sqrt ppf alpha D xq covq q).1 ≤
      (iv_reg_function Real.sqrt ppf alpha D xq covq q).2.1 ∧
    (iv_reg_function Real.sqrt ppf alpha D xq covq q).2.1 ≤
      (iv_reg_function Real.sqrt ppf alpha D xq covq q).2.2 := by
  have hfloor : (0 : ℝ) < seFloor := by
    unfold seFloor
    positivity
  have hse : 0 ≤ seHHat Real.sqrt D xq covq q := Real.sqrt_nonneg _
  refine ⟨hfloor, le_max_right _ _, hse, ?_, ?_⟩
  · show hHat D xq covq q + ppf (alpha / 2) * seHHat Real.sqrt D xq covq q ≤
      hHat D xq covq q
    have h1 : ppf (alpha / 2) * seHHat Real.sqrt D xq covq q ≤ 0 :=
      mul_nonpos_iff.mpr (Or.inr ⟨hlo, hse⟩)
    linarith
  · show hHat D xq covq q ≤
      hHat D xq covq q + ppf (1 - alpha / 2) * seHHat Real.sqrt D xq covq q
    have h1 : 0 ≤ ppf (1 - alpha / 2) * seHHat Real.sqrt D xq covq q :=
      mul_nonneg hhi hse
    linarith

/-- A degenerate concrete instantiation (all-zero data, one sample, one
quantile, one representation dimension) used by the C9 witness. -/
def zeroLinearData : QuantileIVLinearData ℝ Unit 1 1 1 1 where
  getRepr := fun _ _ _ => 0
  xhat := fun _ _ => 0
  x := fun _ => 0
  y := fun _ => 0
  cov := fun _ => ()
  pca := fun _ _ => 0

/-- Witness for C9 at a concrete input (`alpha = 1/2`, zero data, the
constant-zero `ppf`). -/
theorem quantileIVLinear_se_clip_safe_witness :
    (0 : ℝ) < 1/2 ∧ (1/2 : ℝ) < 1 ∧
    ((fun _ : ℝ => (0 : ℝ)) ((1/2) / 2) ≤ 0) ∧
    ((0 : ℝ) ≤ (fun _ : ℝ => (0 : ℝ)) (1 - (1/2) / 2)) ∧
    ((0 : ℝ) < seFloor ∧
     (seFloor : ℝ) ≤
       max ((queryEtaPca zeroLinearData (fun _ : Fin 1 => (0 : ℝ))
           (fun _ : Fin 1 => ()) *
         varBetaIVHat zeroLinearData *
         (queryEtaPca zeroLinearData (fun _ : Fin 1 => (0 : ℝ))
           (fun _ : Fin 1 => ()))ᵀ) 0 0) seFloor ∧
     0 ≤ seHHat Real.sqrt zeroLinearData (fun _ : Fin 1 => (0 : ℝ))
         (fun _ : Fin 1 => ()) 0 ∧
     (iv_reg_function Real.sqrt (fun _ => 0) (1/2) zeroLinearData
        (fun _ : Fin 1 => (0 : ℝ)) (fun _ : Fin 1 => ()) 0).1 ≤
       (iv_reg_function Real.sqrt (fun _ => 0) (1/2) zeroLinearData
        (fun _ : Fin 1 => (0 : ℝ)) (fun _ : Fin 1 => ()) 0).2.1 ∧
     (iv_reg_function Real.sqrt (fun _ => 0) (1/2) zeroLinearData
        (fun _ : Fin 1 => (0 : ℝ)) (fun _ : Fin 1 => ()) 0).2.1 ≤
       (iv_reg_function Real.sqrt (fun _ => 0) (1/2) zeroLinearData
        (fun _ : Fin 1 => (0 : ℝ)) (fun _ : Fin 1 => ()) 0).2.2) :=
  ⟨by norm_num, by norm_num, le_refl 0, le_refl 0,
    quantileIVLinear_se_clip_safe zeroLinearData (fun _ => 0) (1/2)
      (fun _ : Fin 1 => (0 : ℝ)) (fun _ : Fin 1 => ()) 0 (by norm_num)
      (by norm_num) (le_refl 0) (le_refl 0)⟩

end ClipSafety

/- ------------------------------------------------------------------ -/
/- Configuration validation (claim C8)                                 -/
/- ------------------------------------------------------------------ -/

/-- The invalid-configuration signals of the Python code: the two
`assert`s in the exposure model constructors, the `AttributeError` that
`getattr(nn, activation)` raises for a name that is not a class in
`torch.nn`, and the `ValueError` of `MREstimator.interpolate`. -/
inductive ConfigError where
  | nQuantilesAssertionError
  | hiddenAssertionError
  | activationAttributeError
  | interpolationValueError
deriving DecidableEq

/-- `ExposureQuantileMLP.__init__` up to its configuration guard:
`assert n_quantiles >= 3`; on success the constructed model carries the
quantile levels. -/
def ExposureQuantileMLP.mk (n_quantiles : ℕ) :
    Except ConfigError (Fin n_quantiles → ℚ) :=
  if 3 ≤ n_quantiles then .ok (ExposureQuantileMLP.quantiles n_quantiles)
  else .error .nQuantilesAssertionError

/-- `ExposureNMQN.__init__` up to its configuration guards:
`assert n_quantiles >= 3` (line 124) followed by
`assert len(hidden) >= 2` (line 131). -/
def ExposureNMQN.mk (n_quantiles : ℕ) (hidden : List ℕ) :
    Except ConfigError (Fin n_quantiles → ℚ) :=
  if 3 ≤ n_quantiles then
    if 2 ≤ hidden.length then .ok (ExposureNMQN.quantiles n_quantiles)
    else .error .hiddenAssertionError
  else .error .nQuantilesAssertionError

/-- `getattr(nn, activation_str)` in `fit_quantile_iv`: `torchNN` is the
set of attribute names of the external `torch.nn` module; a missing name
raises `AttributeError` (the subsequent `if activation_str is None` check
in the code can never fire, so the `AttributeError` is the signal). -/
def getattrTorchNN (torchNN : List String) (name : String) :
    Except ConfigError String :=
  if name ∈ torchNN then .ok name else .error .activationAttributeError

/-- `train_exposure_model`: constructs the exposure model (running its
configuration asserts) before handing it to the external `train_model`;
the returned value stands for the trained model. -/
def train_exposure_model (nmqn : Bool) (n_quantiles : ℕ)
    (hidden : List ℕ) : Except ConfigError (Fin n_quantiles → ℚ) :=
  if nmqn then ExposureNMQN.mk n_quantiles hidden
  else ExposureQuantileMLP.mk n_quantiles

/-- The configuration-sensitive prefix of `fit_quantile_iv`: the
activation lookup (line 619) runs before `train_exposure_model`, which
constructs the model (running the asserts) before any training step; an
`error` result means the pipeline aborted before training. -/
def fit_quantile_iv (torchNN : List String) (activation : String)
    (nmqn : Bool) (n_quantiles : ℕ) (exposure_hidden : List ℕ) :
    Except ConfigError (Fin n_quantiles → ℚ) :=
  (getattrTorchNN torchNN activation).bind fun _ =>
    train_exposure_model nmqn n_quantiles exposure_hidden

/-- `INTERPOLATION = ["linear", "quadratic", "cubic"]` from `core.py`. -/
def INTERPOLATION : List String := ["linear", "quadratic", "cubic"]

/-- `MREstimator.interpolate`: raises `ValueError` on an unknown
interpolation kind (the actual interpolating callable is external
`scipy.interpolate.interp1d`, abstracted to the validated mode). -/
def MREstimator.interpolate (mode : String) : Except ConfigError String :=
  if mode ∈ INTERPOLATION then .ok mode
  else .error .interpolationValueError

/-- CLAIM C8: an invalid configuration — `n_quantiles < 3` for either
exposure variant, the monotonic variant with fewer than 2 hidden-layer
widths, an activation name that is not a class in `torch.nn`, or an
unknown interpolation kind — causes failure before any training step
runs, signaling the corresponding invalid-configuration error. -/
theorem invalid_config_fails_fast (torchNN : List String)
    (activation : String) (nmqn : Bool) (nq : ℕ) (hidden : List ℕ)
    (mode : String) :
    (activation ∉ torchNN →
      fit_quantile_iv torchNN activation nmqn nq hidden =
        .error .activationAttributeError) ∧
    (activation ∈ torchNN → nq < 3 →
      fit_quantile_iv torchNN activation nmqn nq hidden =
        .error .nQuantilesAssertionError) ∧
    (activation ∈ torchNN → 3 ≤ nq → hidden.length < 2 →
      fit_quantile_iv torchNN activation true nq hidden =
        .error .hiddenAssertionError) ∧
    (mode ∉ INTERPOLATION →
      MREstimator.interpolate mode = .error .interpolationValueError) := by
  refine ⟨?_, ?_, ?_, ?_⟩
  · intro h
    unfold fit_quantile_iv getattrTorchNN
    rw [if_neg h]
    rfl
  · intro hmem hnq
    unfold fit_quantile_iv getattrTorchNN
    rw [if_pos hmem]
    unfold train_exposure_model ExposureNMQN.mk ExposureQuantileMLP.mk
    cases nmqn <;> simp [if_neg (by omega : ¬ 3 ≤ nq)] <;> rfl
  · intro hmem hnq hh
    unfold fit_quantile_iv getattrTorchNN
    rw [if_pos hmem]
    unfold train_exposure_model ExposureNMQN.mk
    simp [if_pos hnq, if_neg (by omega : ¬ 2 ≤ hidden.length)]
    rfl
  · intro h
    unfold MREstimator.interpolate
    rw [if_neg h]

/-- Witness for C8: each invalid configuration evaluated concretely. -/
theorem invalid_config_fails_fast_witness :
    (fit_quantile_iv ["GELU"] "Foo" false 5 [4, 8] =
      .error .activationAttributeError) ∧
    (fit_quantile_iv ["GELU"] "GELU" false 2 [4, 8] =
      .error .nQuantilesAssertionError) ∧
    (fit_quantile_iv ["GELU"] "GELU" true 5 [4] =
      .error .hiddenAssertionError) ∧
    (MREstimator.interpolate "quartic" =
      .error .interpolationValueError) :=
  ⟨(invalid_config_fails_fast ["GELU"] "Foo" false 5 [4, 8] "quartic").1
      (by simp),
   (invalid_config_fails_fast ["GELU"] "GELU" false 2 [4, 8] "quartic").2.1
      (by simp) (by norm_num),
   (invalid_config_fails_fast ["GELU"] "GELU" true 5 [4] "quartic").2.2.1
      (by simp) (by norm_num) (by norm_num),
   (invalid_config_fails_fast ["GELU"] "GELU" false 5 [4, 8]
      "quartic").2.2.2 (by simp [INTERPOLATION])⟩

/- ------------------------------------------------------------------ -/
/- QuantileIVEstimator.from_results (claim C10)                        -/
/- ------------------------------------------------------------------ -/

section FromResults

variable {V : Type}

/-- A results directory: `files` maps artifact file names to their
contents (`none` = file absent); `nmqnFlag` reads `meta.get("nmqn", False)`
out of the parsed `meta.json`. -/
structure ResultsDir (V : Type) where
  files : String → Option V
  nmqnFlag : V → Bool

/-- The load errors `from_results` can see. -/
inductive LoadError where
  | fileNotFoundError
deriving DecidableEq

/-- `torch.load` / `open(...)`: raises `FileNotFoundError` when the file
is absent. -/
def torchLoad (fs : String → Option V) (name : String) :
    Except LoadError V :=
  match fs name with
  | some v => .ok v
  | none => .error .fileNotFoundError

/-- The exposure-model class chosen by `from_results` from the `nmqn`
metadata flag. -/
inductive ExposureNetClass where
  | nmqn
  | quantileMLP
deriving DecidableEq

/-- The loaded estimator: the chosen exposure class, both checkpoints,
the metadata and the optional covariates. -/
structure QuantileIVEstimatorState (V : Type) where
  exposureClass : ExposureNetClass
  exposure_network : V
  outcome_network : V
  meta : V
  covars : Option V
deriving DecidableEq

/-- `QuantileIVEstimator.from_results`: loads `meta.json`, then tries
`covariables.pt` with `except FileNotFoundError: covars = None`, chooses
the exposure class from `meta.get("nmqn", False)`, and loads the two
checkpoints. -/
def QuantileIVEstimator.from_results (dir : ResultsDir V) :
    Except LoadError (QuantileIVEstimatorState V) := do
  let meta ← torchLoad dir.files "meta.json"
  let covars : Option V :=
    match torchLoad dir.files "covariables.pt" with
    | .ok v => some v
    | .error .fileNotFoundError => none
  let cls := if dir.nmqnFlag meta then ExposureNetClass.nmqn
    else ExposureNetClass.quantileMLP
  let e ← torchLoad dir.files "exposure_network.ckpt"
  let o ← torchLoad dir.files "outcome_network.ckpt"
  pure ⟨cls, e, o, meta, covars⟩

/-- CLAIM C10: when the persisted covariables artifact is absent but the
other artifacts are present, `from_results` succeeds with the covariates
treated as absent (`none`) rather than raising an error. -/
theorem from_results_missing_covariables_ok (dir : ResultsDir V)
    (m e o : V)
    (hm : dir.files "meta.json" = some m)
    (hc : dir.files "covariables.pt" = none)
    (he : dir.files "exposure_network.ckpt" = some e)
    (ho : dir.files "outcome_network.ckpt" = some o) :
    QuantileIVEstimator.from_results dir =
      .ok ⟨if dir.nmqnFlag m then ExposureNetClass.nmqn
             else ExposureNetClass.quantileMLP,
           e, o, m, none⟩ := by
  unfold QuantileIVEstimator.from_results torchLoad
  rw [hm, hc, he, ho]
  rfl

/-- The concrete results directory of the C10 witness: all artifacts
present except `covariables.pt`. -/
def exampleResultsDir : ResultsDir ℕ where
  files := fun s =>
    if s = "meta.json" then some 1
    else if s = "exposure_network.ckpt" then some 2
    else if s = "outcome_network.ckpt" then some 3
    else none
  nmqnFlag := fun _ => false

/-- Witness for C10 on the concrete directory. -/
theorem from_results_missing_covariables_ok_witness :
    exampleResultsDir.files "meta.json" = some 1 ∧
    exampleResultsDir.files "covariables.pt" = none ∧
    exampleResultsDir.files "exposure_network.ckpt" = some 2 ∧
    exampleResultsDir.files "outcome_network.ckpt" = some 3 ∧
    QuantileIVEstimator.from_results exampleResultsDir =
      .ok ⟨ExposureNetClass.quantileMLP, 2, 3, 1, none⟩ :=
  ⟨by simp [exampleResultsDir], by simp [exampleResultsDir],
   by simp [exampleResultsDir], by simp [exampleResultsDir],
   from_results_missing_covariables_ok exampleResultsDir 1 2 3
     (by simp [exampleResultsDir]) (by simp [exampleResultsDir])
     (by simp [exampleResultsDir]) (by simp [exampleResultsDir])⟩

end FromResults

/- ------------------------------------------------------------------ -/
/- Conformal calibration (claim C6)                                    -/
/- ------------------------------------------------------------------ -/

/-- Modelled from the spec: the conformal calibrator of the SQR outcome
model belongs to the repository but is absent from `src/`; per §4.5 the
nonconformity score of a calibration sample is the largest signed
deviation of the true outcome outside the predicted `[α/2, 1−α/2]` band:
`max(lower − y, y − upper)`. -/
def conformalScore (lower upper y : ℚ) : ℚ :=
  max (lower - y) (y - upper)

/-- Ascending sort of the calibration scores (used to take an empirical
quantile). -/
def sortScores (l : List ℚ) : List ℚ :=
  l.insertionSort (· ≤ ·)

/-- The `k`-th smallest element of a list (1-indexed). -/
def kthSmallest (l : List ℚ) (k : ℕ) : ℚ :=
  (sortScores l).getD (k - 1) 0

/-- Modelled from the spec: the finite-sample split-conformal index
`⌈(m+1)(1−α)⌉`. -/
def conformalK (m : ℕ) (alpha : ℚ) : ℕ :=
  (Int.ceil (((m : ℚ) + 1) * (1 - alpha))).toNat

/-- Modelled from the spec: `q̂` is the empirical `⌈(m+1)(1−α)⌉/m`
quantile of the `m` calibration scores, i.e. their `⌈(m+1)(1−α)⌉`-th
smallest. -/
def conformalQhat (scores : List ℚ) (alpha : ℚ) : ℚ :=
  kthSmallest scores (conformalK scores.length alpha)

/-- Modelled from the spec: at inference the lower bound is widened by
`−q̂` and the upper bound by `+q̂`. -/
def conformalAdjust (qhat lower upper : ℚ) : ℚ × ℚ :=
  (lower - qhat, upper + qhat)

lemma sortScores_sorted (l : List ℚ) : List.Sorted (· ≤ ·) (sortScores l) :=
  List.sorted_insertionSort _ l

lemma sortScores_perm (l : List ℚ) : (sortScores l).Perm l :=
  List.perm_insertionSort _ l

lemma sortScores_length (l : List ℚ) : (sortScores l).length = l.length :=
  (sortScores_perm l).length_eq

lemma sortScores_get_le (l : List ℚ) (i j : ℕ) (hij : i ≤ j)
    (hj : j < (sortScores l).length) :
    (sortScores l).get ⟨i, by omega⟩ ≤ (sortScores l).get ⟨j, hj⟩ :=
  List.Sorted.rel_get_of_le (sortScores_sorted l) (by simp [Fin.le_def]; omega)

lemma kthSmallest_eq_get (l : List ℚ) (k : ℕ) (hk1 : 1 ≤ k)
    (hk : k ≤ l.length) :
    kthSmallest l k =
      (sortScores l).get ⟨k - 1, by rw [sortScores_length]; omega⟩ := by
  unfold kthSmallest
  rw [List.getD_eq_getElem _ 0 (by rw [sortScores_length]; omega)]
  rfl

lemma countP_ge_of_take (s : List ℚ) (p : ℚ → Bool) (k : ℕ) (hk : k ≤ s.length)
    (h : ∀ i (hi : i < k), p (s.get ⟨i, lt_of_lt_of_le hi hk⟩) = true) :
    k ≤ s.countP p := by
  have hsplit : s.countP p = (s.take k).countP p + (s.drop k).countP p := by
    rw [← List.countP_append, List.take_append_drop]
  have hlen : (s.take k).length = k := by
    rw [List.length_take]
    omega
  have h1 : (s.take k).countP p = k := by
    rw [List.countP_eq_length.mpr, hlen]
    intro a ha
    obtain ⟨⟨i, hi⟩, rfl⟩ := List.mem_iff_get.mp ha
    have hik : i < k := by rw [hlen] at hi; exact hi
    have hget : (s.take k).get ⟨i, hi⟩ =
        s.get ⟨i, lt_of_lt_of_le hik hk⟩ := by
      rw [List.get_eq_getElem, List.get_eq_getElem, List.getElem_take]
    rw [hget]
    exact h i hik
  omega

lemma count_le_kthSmallest (l : List ℚ) (k : ℕ) (hk1 : 1 ≤ k)
    (hk : k ≤ l.length) :
    k ≤ l.countP (fun x => decide (x ≤ kthSmallest l k)) := by
  have hsl : (sortScores l).length = l.length := sortScores_length l
  rw [← (sortScores_perm l).countP_eq]
  apply countP_ge_of_take _ _ k (by omega)
  intro i hi
  simp only [decide_eq_true_eq]
  rw [kthSmallest_eq_get l k hk1 hk]
  exact sortScores_get_le l i (k - 1) (by omega) (by omega)

lemma kthSmallest_lt_of_count (l : List ℚ) (k : ℕ) (v : ℚ) (hk1 : 1 ≤ k)
    (hk : k ≤ l.length)
    (h : k ≤ l.countP (fun x => decide (x < v))) : kthSmallest l k < v := by
  by_contra hkv
  push_neg at hkv
  rw [← (sortScores_perm l).countP_eq] at h
  have hsl : (sortScores l).length = l.length := sortScores_length l
  have hsplit : (sortScores l).countP (fun x => decide (x < v)) =
      ((sortScores l).take (k - 1)).countP (fun x => decide (x < v)) +
      ((sortScores l).drop (k - 1)).countP (fun x => decide (x < v)) := by
    rw [← List.countP_append, List.take_append_drop]
  have h1 : ((sortScores l).take (k - 1)).countP
      (fun x => decide (x < v)) ≤ k - 1 :=
    le_trans (List.countP_le_length _) (by rw [List.length_take]; omega)
  have hdl : ((sortScores l).drop (k - 1)).length =
      (sortScores l).length - (k - 1) := List.length_drop _ _
  have h2 : ((sortScores l).drop (k - 1)).countP
      (fun x => decide (x < v)) = 0 := by
    rw [List.countP_eq_zero]
    intro a ha
    obtain ⟨⟨i, hi⟩, rfl⟩ := List.mem_iff_get.mp ha
    simp only [decide_eq_true_eq, not_lt]
    have hib : (k - 1) + i < (sortScores l).length := by omega
    have hget : ((sortScores l).drop (k - 1)).get ⟨i, hi⟩ =
        (sortScores l).get ⟨(k - 1) + i, hib⟩ := by
      rw [List.get_eq_getElem, List.get_eq_getElem, List.getElem_drop]
    rw [hget]
    have hkth : v ≤ (sortScores l).get ⟨k - 1, by omega⟩ := by
      rw [← kthSmallest_eq_get l k hk1 hk]
      exact hkv
    exact le_trans hkth
      (sortScores_get_le l (k - 1) ((k - 1) + i) (by omega) hib)
  omega

lemma le_kthSmallest_of_count_lt (l : List ℚ) (k : ℕ) (v : ℚ) (hk1 : 1 ≤ k)
    (hk : k ≤ l.length)
    (h : l.countP (fun x => decide (x < v)) < k) : v ≤ kthSmallest l k := by
  by_contra hlt
  push_neg at hlt
  have hsl : (sortScores l).length = l.length := sortScores_length l
  have : k ≤ l.countP (fun x => decide (x < v)) := by
    rw [← (sortScores_perm l).countP_eq]
    apply countP_ge_of_take _ _ k (by omega)
    intro i hi
    simp only [decide_eq_true_eq]
    calc (sortScores l).get ⟨i, by omega⟩
        ≤ (sortScores l).get ⟨k - 1, by omega⟩ :=
          sortScores_get_le l i (k - 1) (by omega) (by omega)
      _ < v := by rw [← kthSmallest_eq_get l k hk1 hk]; exact hlt
  omega

lemma countP_ofFn_eq {N : ℕ} (t : Fin N → ℚ) (p : ℚ → Bool) (q : Fin N → Bool)
    (hq : ∀ i, q i = p (t i)) :
    (List.finRange N).countP q = (List.ofFn t).countP p := by
  rw [List.ofFn_eq_map, List.countP_map]
  exact List.countP_congr fun x _ => by rw [hq]; exact Iff.rfl

/-- The combinatorial core of split-conformal exchangeability: among
`M + 1` pooled scores, at least `k` indices `i` have their score bounded
by the `k`-th smallest of the other `M` scores. -/
lemma conformal_coverage_count (M : ℕ) (k : ℕ) (t : Fin (M + 1) → ℚ)
    (hk1 : 1 ≤ k) (hkM : k ≤ M) :
    k ≤ (List.finRange (M + 1)).countP
      (fun i => decide (t i ≤ kthSmallest ((List.ofFn t).eraseIdx (i : ℕ)) k)) := by
  have hall : (List.ofFn t).length = M + 1 := List.length_ofFn t
  have h1 : k ≤ (List.finRange (M + 1)).countP
      (fun i => decide (t i ≤ kthSmallest (List.ofFn t) k)) := by
    rw [countP_ofFn_eq t (fun x => decide (x ≤ kthSmallest (List.ofFn t) k))
      (fun i => decide (t i ≤ kthSmallest (List.ofFn t) k)) (fun i => rfl)]
    exact count_le_kthSmallest (List.ofFn t) k hk1 (by omega)
  refine le_trans h1 (List.countP_mono_left fun i _ hi => ?_)
  simp only [decide_eq_true_eq] at hi ⊢
  have hloolen : ((List.ofFn t).eraseIdx (i : ℕ)).length = M := by
    rw [List.length_eraseIdx]
    simp [hall, i.isLt]
  have hltk : (List.ofFn t).countP (fun x => decide (x < t i)) < k := by
    by_contra hge
    push_neg at hge
    have := kthSmallest_lt_of_count (List.ofFn t) k (t i) hk1 (by omega) hge
    exact absurd hi (not_le.mpr this)
  have hsub : ((List.ofFn t).eraseIdx (i : ℕ)).countP
      (fun x => decide (x < t i)) ≤
      (List.ofFn t).countP (fun x => decide (x < t i)) :=
    (List.eraseIdx_sublist (List.ofFn t) (i : ℕ)).countP_le _
  exact le_kthSmallest_of_count_lt _ k _ hk1 (by omega) (by omega)

/-- CLAIM C6: the conformal calibrator scores each sample by the largest
signed deviation of the outcome outside the predicted band, sets `q̂` to
the empirical `⌈(m+1)(1−α)⌉/m` quantile of the scores, widens the bounds
by `−q̂`/`+q̂` (a point lies in the widened interval exactly when its
score is at most `q̂`), and the resulting intervals attain marginal
coverage at least `1 − α` under exchangeability: pooling the `m`
calibration samples with one test sample, at least a `1 − α` fraction of
the `m + 1` choices of held-out index give an outcome inside the interval
widened by the `q̂` computed from the other `m` samples — exchangeability
makes each choice equally likely, so the coverage probability is exactly
this fraction's expectation. -/
theorem conformal_calibration_valid (M : ℕ) (alpha : ℚ)
    (lo up yv : Fin (M + 1) → ℚ)
    (h0 : 0 < alpha) (h1 : alpha < 1)
    (hkM : conformalK M alpha ≤ M) :
    (∀ l u z qhat : ℚ,
      ((conformalAdjust qhat l u).1 ≤ z ∧ z ≤ (conformalAdjust qhat l u).2) ↔
        conformalScore l u z ≤ qhat) ∧
    1 - alpha ≤
      (((List.finRange (M + 1)).countP (fun (i : Fin (M + 1)) =>
        decide ((conformalAdjust
            (conformalQhat ((List.ofFn fun j =>
              conformalScore (lo j) (up j) (yv j)).eraseIdx (i : ℕ)) alpha)
            (lo i) (up i)).1 ≤ yv i ∧
          yv i ≤ (conformalAdjust
            (conformalQhat ((List.ofFn fun j =>
              conformalScore (lo j) (up j) (yv j)).eraseIdx (i : ℕ)) alpha)
            (lo i) (up i)).2))) : ℚ) / ((M : ℚ) + 1) := by
  have hmem : ∀ l u z qhat : ℚ,
      ((conformalAdjust qhat l u).1 ≤ z ∧ z ≤ (conformalAdjust qhat l u).2) ↔
        conformalScore l u z ≤ qhat := by
    intro l u z qhat
    unfold conformalAdjust conformalScore
    dsimp only
    rw [max_le_iff]
    constructor
    · rintro ⟨a, b⟩
      exact ⟨by linarith, by linarith⟩
    · rintro ⟨a, b⟩
      exact ⟨by linarith, by linarith⟩
  refine ⟨hmem, ?_⟩
  set t : Fin (M + 1) → ℚ := fun j => conformalScore (lo j) (up j) (yv j)
    with ht
  set k := conformalK M alpha with hkdef
  have hv : (0 : ℚ) < ((M : ℚ) + 1) * (1 - alpha) :=
    mul_pos (by positivity) (by linarith)
  have hceil1 : 1 ≤ Int.ceil (((M : ℚ) + 1) * (1 - alpha)) :=
    Int.ceil_pos.mpr hv
  have hkc : k = (Int.ceil (((M : ℚ) + 1) * (1 - alpha))).toNat := hkdef
  have hk1 : 1 ≤ k := by omega
  have hcount := conformal_coverage_count M k t hk1 hkM
  have hall : (List.ofFn t).length = M + 1 := List.length_ofFn t
  have hloolen : ∀ i : Fin (M + 1),
      ((List.ofFn t).eraseIdx (i : ℕ)).length = M := by
    intro i
    rw [List.length_eraseIdx]
    simp [hall, i.isLt]
  have hqhat : ∀ i : Fin (M + 1),
      conformalQhat ((List.ofFn t).eraseIdx (i : ℕ)) alpha =
        kthSmallest ((List.ofFn t).eraseIdx (i : ℕ)) k := by
    intro i
    unfold conformalQhat
    rw [hloolen i]
  have hPQ : (List.finRange (M + 1)).countP (fun (i : Fin (M + 1)) =>
        decide ((conformalAdjust
            (conformalQhat ((List.ofFn t).eraseIdx (i : ℕ)) alpha)
            (lo i) (up i)).1 ≤ yv i ∧
          yv i ≤ (conformalAdjust
            (conformalQhat ((List.ofFn t).eraseIdx (i : ℕ)) alpha)
            (lo i) (up i)).2)) =
      (List.finRange (M + 1)).countP (fun i =>
        decide (t i ≤ kthSmallest ((List.ofFn t).eraseIdx (i : ℕ)) k)) := by
    refine List.countP_congr fun i _ => ?_
    simp only [decide_eq_true_eq]
    rw [hqhat i]
    exact hmem (lo i) (up i) (yv i) _
  rw [hPQ]
  have hM1 : (0 : ℚ) < (M : ℚ) + 1 := by positivity
  rw [le_div_iff₀ hM1]
  have htn : ((k : ℕ) : ℤ) = Int.ceil (((M : ℚ) + 1) * (1 - alpha)) := by
    rw [hkc]
    exact Int.toNat_of_nonneg (by omega)
  have hkQ : ((M : ℚ) + 1) * (1 - alpha) ≤ (k : ℚ) := by
    calc ((M : ℚ) + 1) * (1 - alpha)
        ≤ ((Int.ceil (((M : ℚ) + 1) * (1 - alpha)) : ℤ) : ℚ) :=
          Int.le_ceil _
      _ = ((k : ℕ) : ℚ) := by exact_mod_cast htn.symm
  have hck : ((k : ℕ) : ℚ) ≤
      (((List.finRange (M + 1)).countP (fun i =>
        decide (t i ≤ kthSmallest ((List.ofFn t).eraseIdx (i : ℕ)) k))) : ℚ) := by
    exact_mod_cast hcount
  nlinarith

/-- Witness for C6 at `m = 4`, `alpha = 1/2`, all-zero bands and
outcomes. -/
theorem conformal_calibration_valid_witness :
    ((0 : ℚ) < 1/2) ∧ ((1/2 : ℚ) < 1) ∧ conformalK 4 (1/2) ≤ 4 ∧
    ((∀ l u z qhat : ℚ,
      ((conformalAdjust qhat l u).1 ≤ z ∧ z ≤ (conformalAdjust qhat l u).2) ↔
        conformalScore l u z ≤ qhat) ∧
    1 - (1/2 : ℚ) ≤
      (((List.finRange (4 + 1)).countP (fun (i : Fin (4 + 1)) =>
        decide ((conformalAdjust
            (conformalQhat ((List.ofFn fun _ : Fin (4 + 1) =>
              conformalScore 0 0 0).eraseIdx (i : ℕ)) (1/2))
            0 0).1 ≤ (0 : ℚ) ∧
          (0 : ℚ) ≤ (conformalAdjust
            (conformalQhat ((List.ofFn fun _ : Fin (4 + 1) =>
              conformalScore 0 0 0).eraseIdx (i : ℕ)) (1/2))
            0 0).2))) : ℚ) / (((4 : ℕ) : ℚ) + 1)) := by
  have hk : conformalK 4 (1/2) = 3 := by
    unfold conformalK
    have h5 : (((4 : ℕ) : ℚ) + 1) * (1 - 1/2) = 5/2 := by norm_num
    rw [h5, show Int.ceil ((5 : ℚ)/2) = 3 from by
      rw [Int.ceil_eq_iff]
      norm_num]
    rfl
  exact ⟨by norm_num, by norm_num, by omega,
    conformal_calibration_valid 4 (1/2) (fun _ => 0) (fun _ => 0)
      (fun _ => 0) (by norm_num) (by norm_num) (by omega)⟩

/- ------------------------------------------------------------------ -/
/- Estimator interface (claim C7)                                      -/
/- ------------------------------------------------------------------ -/

section EstimatorContract

variable {X C : Type}

/-- The exception of `MREstimator.effect` in the base class. -/
inductive EstimatorError where
  | notImplementedError
deriving DecidableEq

/-- `MREstimator.effect` from `core.py`: the base class raises
`NotImplementedError`. -/
def MREstimator.effect (R : Type) : Except EstimatorError R :=
  .error .notImplementedError

/-- Modelled from the spec: the concrete `effect` dispatch of the
estimator classes is absent from `src/` (`src/core.py` is an older
snapshot of the core module — it lacks `MREstimatorWithUncertainty`,
which `quantile_iv.py` imports from it); per §4.7, `effect(x, covars)`
evaluates `iv_reg_function` at each query exposure, marginalising over
the stored empirical covariate rows (`mean`) when covariates are
present. -/
def MREstimator.effectDispatch {R : Type} (ivreg : X → Option C → R)
    (mean : List R → R) (covars : Option (List C)) (xs : List X) :
    Except EstimatorError (List R) :=
  match covars with
  | none => .ok (xs.map fun x => ivreg x none)
  | some cs => .ok (xs.map fun x => mean (cs.map fun c => ivreg x (some c)))

/-- `QuantileIVEstimator`'s inference path: `iv_reg_function` is
`outcome_network.x_to_y` (one scalar per query); marginalisation is the
empirical average. -/
def QuantileIVEstimator.effect (x_to_y : X → Option C → ℚ)
    (covars : Option (List C)) (xs : List X) :
    Except EstimatorError (List ℚ) :=
  MREstimator.effectDispatch x_to_y (fun l => l.sum / l.length) covars xs

/-- `QuantileIVLinearEstimator`'s inference path: `iv_reg_function` from
the linear inference module returns a `(lower, point, upper)` triple per
query; marginalisation averages componentwise. -/
def QuantileIVLinearEstimator.effect {n K dR dP : ℕ}
    (sqrtFn ppf : ℚ → ℚ) (alpha : ℚ)
    (D : QuantileIVLinearData ℚ (Option C) n K dR dP)
    (covars : Option (List C)) (xs : List ℚ) :
    Except EstimatorError (List (ℚ × ℚ × ℚ)) :=
  MREstimator.effectDispatch
    (fun x c => QuantileIVLinearEstimator.iv_reg_function sqrtFn ppf alpha D
      (fun _ : Fin 1 => x) (fun _ : Fin 1 => c) 0)
    (fun l => ((l.map fun v => v.1).sum / l.length,
               (l.map fun v => v.2.1).sum / l.length,
               (l.map fun v => v.2.2).sum / l.length))
    covars xs

/-- CLAIM C7: the base `MREstimator.effect` raises `NotImplementedError`,
while both estimators exposed to callers implement the uniform contract:
for every query batch and optional covariates, `QuantileIVEstimator`
returns one scalar per query and `QuantileIVLinearEstimator` one
`(lower, point, upper)` triple per query, and neither raises
`NotImplementedError`. -/
theorem estimator_effect_contract {n K dR dP : ℕ}
    (x_to_y : X → Option C → ℚ) (sqrtFn ppf : ℚ → ℚ) (alpha : ℚ)
    (D : QuantileIVLinearData ℚ (Option C) n K dR dP)
    (covars : Option (List C)) (xs : List X) (xq : List ℚ) :
    (MREstimator.effect (List ℚ) = .error .notImplementedError) ∧
    (∃ ys : List ℚ,
      QuantileIVEstimator.effect x_to_y covars xs = .ok ys ∧
      ys.length = xs.length) ∧
    (∃ ts : List (ℚ × ℚ × ℚ),
      QuantileIVLinearEstimator.effect sqrtFn ppf alpha D covars xq = .ok ts ∧
      ts.length = xq.length) := by
  refine ⟨rfl, ?_, ?_⟩
  · cases covars with
    | none => exact ⟨_, rfl, List.length_map _ _⟩
    | some cs => exact ⟨_, rfl, List.length_map _ _⟩
  · cases covars with
    | none => exact ⟨_, rfl, List.length_map _ _⟩
    | some cs => exact ⟨_, rfl, List.length_map _ _⟩

end EstimatorContract
